import Mathlib

/-!
Shallow embedding of the feops multi-repository inspection core
(src/commands/merged.ts and src/commands/uptodate.ts, plus the wave
scheduler loop shared by both commands and the progress bar updates).

A repository's git behaviour is abstracted as a `GitRepo`: one field per
distinct git subcommand the inspection code invokes through execSync.
A failing subprocess (nonzero exit, which execSync turns into a thrown
exception) is modelled as `none` / `false`.  Each inspection function
returns its result record together with the list of git invocations it
performed, so that "no ancestry computation happened" is observable.
-/

namespace Feops

/-- One git subprocess invocation performed by the inspection code. -/
inductive GitCall where
  /-- git fetch --all --prune -/
  | fetch : GitCall
  /-- git rev-parse --verify (ref) -/
  | verify : String → GitCall
  /-- git rev-parse (ref) -/
  | revParse : String → GitCall
  /-- git log -1 --format=%ci (commit) -/
  | logDate : String → GitCall
  /-- git merge-base --is-ancestor (a) (b) -/
  | ancestor : String → String → GitCall
  /-- git rev-list --count (lo)..(hi) -/
  | revListCount : String → String → GitCall
  /-- git log --oneline --merges --grep=Merge.*(branch) (base) piped to head -1 -/
  | mergeGrep : String → String → GitCall
deriving DecidableEq, Repr

/-- Abstract behaviour of one repository, one field per git subcommand used by
the inspection code.  `none` / `false` models a nonzero exit status, which
execSync surfaces as a thrown exception. -/
structure GitRepo where
  /-- whether git fetch --all --prune exits 0 within the 30s timeout -/
  fetchOk : Bool
  /-- whether git rev-parse --verify (ref) exits 0 -/
  verify : String → Bool
  /-- output of git rev-parse (ref): the commit hash, or none on failure -/
  revParse : String → Option String
  /-- output of git log -1 --format=%ci (commit), or none on failure -/
  commitDate : String → Option String
  /-- whether git merge-base --is-ancestor (a) (b) exits 0 -/
  isAncestor : String → String → Bool
  /-- output of git rev-list --count (lo)..(hi), or none on failure -/
  revListCount : String → String → Option String
  /-- output of the merge-commit grep pipeline, or none on failure -/
  mergeGrep : String → String → Option String

/-- The two-tier ref resolution block that both commands inline twice
(uptodate.ts:145-187, merged.ts:139-181): try git rev-parse --verify on the
bare name, on failure try origin/(name); if both fail, exists=false and the
actual-ref variable keeps its initial value, the requested name.  Returns
((exists, actualRef), git calls made). -/
def resolveRef (r : GitRepo) (name : String) : (Bool × String) × List GitCall :=
  if r.verify name then
    ((true, name), [GitCall.verify name])
  else if r.verify ("origin/" ++ name) then
    ((true, "origin/" ++ name), [GitCall.verify name, GitCall.verify ("origin/" ++ name)])
  else
    ((false, name), [GitCall.verify name, GitCall.verify ("origin/" ++ name)])

/-- Value of a digit string, most significant first. -/
def digitsVal (cs : List Char) : Nat :=
  cs.foldl (fun n c => n * 10 + (c.toNat - 48)) 0

/-- Model of the JavaScript expression parseInt(s) with a fallback of 0 when
the parse yields NaN (uptodate.ts:260: parseInt(behindCount) with a 0
fallback).  parseInt skips leading whitespace, accepts an optional sign and
reads the longest digit run; no digits means NaN, mapped to 0. -/
def jsParseIntOr0 (s : String) : Int :=
  match s.toList.dropWhile (fun c => c.isWhitespace) with
  | [] => 0
  | '-' :: cs =>
      let ds := cs.takeWhile Char.isDigit
      if ds.isEmpty then 0 else - (digitsVal ds : Int)
  | '+' :: cs =>
      let ds := cs.takeWhile Char.isDigit
      if ds.isEmpty then 0 else (digitsVal ds : Int)
  | cs =>
      let ds := cs.takeWhile Char.isDigit
      if ds.isEmpty then 0 else (digitsVal ds : Int)

/-- Error message prefix recorded when git fetch fails (uptodate.ts:139,
merged.ts:133); the interpolated exception text is not modelled. -/
def fetchFailMsg : String := "Git fetch 失败"

/-- Error message prefix recorded when the merge-status check block throws
(uptodate.ts:267, merged.ts:251); the interpolated text is not modelled. -/
def checkFailMsg : String := "检查合并状态失败"

/-- Result record of the uptodate command, uptodate.ts:10-24
(MasterMergeCheckResult). -/
structure MasterMergeCheckResult where
  name : String
  path : String
  branchExists : Bool
  masterExists : Bool
  hasMasterChanges : Bool
  isUpToDate : Bool
  behindCommits : Int
  lastMasterCommit : Option String := none
  lastBranchCommit : Option String := none
  lastMasterDate : Option String := none
  lastBranchDate : Option String := none
  error : Option String := none
  fetchSuccess : Bool
deriving DecidableEq, Repr

/-- Result record of the merged command, merged.ts:10-20 (MergeCheckResult).
Note it has no drift-count field at all. -/
structure MergeCheckResult where
  name : String
  path : String
  branchExists : Bool
  masterExists : Bool
  isMerged : Bool
  mergeCommit : Option String := none
  mergeDate : Option String := none
  error : Option String := none
  fetchSuccess : Bool
deriving DecidableEq, Repr

/-- processProject of uptodate.ts:104-276, inspecting one repository for the
BaseIntoBranch direction.  Returns the result record and the list of git
calls made.  The outer catch (uptodate.ts:271) is unreachable in this model:
every subprocess failure is handled by an inner handler.  Note the drift
count at uptodate.ts:252 uses the requested names branchName and baseBranch,
not the resolved actualBranchRef and actualMasterRef. -/
def processProjectU (r : GitRepo) (projectName targetDir branchName baseBranch : String)
    (fetch : Bool) : MasterMergeCheckResult × List GitCall :=
  let projectPath := targetDir ++ "/" ++ projectName
  let fetchSuccess := if fetch then r.fetchOk else true
  let fetchErr : Option String := if fetch && !r.fetchOk then some fetchFailMsg else none
  let fetchLog : List GitCall := if fetch then [GitCall.fetch] else []
  let rm := resolveRef r baseBranch
  let rb := resolveRef r branchName
  let base : MasterMergeCheckResult :=
    { name := projectName, path := projectPath,
      branchExists := rb.1.1, masterExists := rm.1.1,
      hasMasterChanges := false, isUpToDate := false, behindCommits := 0,
      error := fetchErr, fetchSuccess := fetchSuccess }
  let log0 := fetchLog ++ rm.2 ++ rb.2
  if rb.1.1 && rm.1.1 then
    match r.revParse rm.1.2 with
    | none => ({ base with error := some checkFailMsg },
               log0 ++ [GitCall.revParse rm.1.2])
    | some masterCommit =>
      match r.revParse rb.1.2 with
      | none => ({ base with error := some checkFailMsg },
                 log0 ++ [GitCall.revParse rm.1.2, GitCall.revParse rb.1.2])
      | some branchCommit =>
        let log1 := log0 ++ [GitCall.revParse rm.1.2, GitCall.revParse rb.1.2,
                             GitCall.logDate masterCommit, GitCall.logDate branchCommit]
        let withCommits := { base with
          lastMasterCommit := some masterCommit,
          lastBranchCommit := some branchCommit,
          lastMasterDate := r.commitDate masterCommit,
          lastBranchDate := r.commitDate branchCommit }
        if r.isAncestor masterCommit branchCommit then
          ({ withCommits with isUpToDate := true, hasMasterChanges := false },
           log1 ++ [GitCall.ancestor masterCommit branchCommit])
        else
          let bc : Int :=
            match r.revListCount branchName baseBranch with
            | some s => jsParseIntOr0 s
            | none => 0
          ({ withCommits with
              isUpToDate := false, hasMasterChanges := true,
              behindCommits := bc },
           log1 ++ [GitCall.ancestor masterCommit branchCommit,
                    GitCall.revListCount branchName baseBranch])
  else (base, log0)

/-- processProject of merged.ts:100-260, inspecting one repository for the
BranchIntoBase direction.  Returns the result record and the list of git
calls made.  The outer catch (merged.ts:255) is unreachable in this model:
every subprocess failure is handled by an inner handler.  No drift count is
ever computed in this direction. -/
def processProjectM (r : GitRepo) (projectName targetDir branchName baseBranch : String)
    (fetch : Bool) : MergeCheckResult × List GitCall :=
  let projectPath := targetDir ++ "/" ++ projectName
  let fetchSuccess := if fetch then r.fetchOk else true
  let fetchErr : Option String := if fetch && !r.fetchOk then some fetchFailMsg else none
  let fetchLog : List GitCall := if fetch then [GitCall.fetch] else []
  let rm := resolveRef r baseBranch
  let rb := resolveRef r branchName
  let base : MergeCheckResult :=
    { name := projectName, path := projectPath,
      branchExists := rb.1.1, masterExists := rm.1.1, isMerged := false,
      error := fetchErr, fetchSuccess := fetchSuccess }
  let log0 := fetchLog ++ rm.2 ++ rb.2
  if rb.1.1 && rm.1.1 then
    match r.revParse rb.1.2 with
    | none => ({ base with error := some checkFailMsg },
               log0 ++ [GitCall.revParse rb.1.2])
    | some branchCommit =>
      match r.revParse rm.1.2 with
      | none => ({ base with error := some checkFailMsg },
                 log0 ++ [GitCall.revParse rb.1.2, GitCall.revParse rm.1.2])
      | some masterCommit =>
        let log1 := log0 ++ [GitCall.revParse rb.1.2, GitCall.revParse rm.1.2]
        if r.isAncestor branchCommit masterCommit then
          let gi := r.mergeGrep branchName baseBranch
          let mergeCommit : Option String :=
            match gi with
            | some s =>
                if s.isEmpty then none
                else
                  match (s.splitOn " ").head? with
                  | some w => if w.isEmpty then none else some w
                  | none => none
            | none => none
          let mergeDate : Option String :=
            match mergeCommit with
            | some c => r.commitDate c
            | none => none
          let logM := log1 ++ [GitCall.ancestor branchCommit masterCommit,
                               GitCall.mergeGrep branchName baseBranch]
            ++ (match mergeCommit with | some c => [GitCall.logDate c] | none => [])
          ({ base with
              isMerged := true, mergeCommit := mergeCommit,
              mergeDate := mergeDate }, logM)
        else
          ({ base with isMerged := false },
           log1 ++ [GitCall.ancestor branchCommit masterCommit])
  else (base, log0)

/-- The wave loop shared by both commands (uptodate.ts:81-93,
merged.ts:77-89): the index i starts at 0 and advances by k; each wave maps
the job over projectDirs.slice(i, i+k), appends the wave's results, and
pushes one progress update (min(i+k, total), total).  Fuel bounds the
iteration count; with 0 < k a fuel of ps.length + 1 is never exhausted.
A fuel of 0 mirrors the nonterminating k = 0 loop by producing nothing. -/
def runWavesFrom {α : Type} (job : String → α) (ps : List String) (k : Nat) :
    Nat → Nat → List α × List (Nat × Nat)
  | _, 0 => ([], [])
  | i, fuel + 1 =>
    if i < ps.length then
      let rest := runWavesFrom job ps k (i + k) fuel
      (((ps.drop i).take k).map job ++ rest.1,
       (min (i + k) ps.length, ps.length) :: rest.2)
    else ([], [])

/-- The full wave loop from i = 0, returning (results, progress updates). -/
def runWaves {α : Type} (job : String → α) (ps : List String) (k : Nat) :
    List α × List (Nat × Nat) :=
  runWavesFrom job ps k 0 (ps.length + 1)

/-- The uptodate command's batch run over discovered project names, with the
world w giving each project's git behaviour (uptodate.ts:81-93). -/
def uptodateRun (w : String → GitRepo) (targetDir branchName baseBranch : String)
    (fetch : Bool) (ps : List String) (k : Nat) :
    List MasterMergeCheckResult × List (Nat × Nat) :=
  runWaves (fun p => (processProjectU (w p) p targetDir branchName baseBranch fetch).1) ps k

/-- The merged command's batch run over discovered project names
(merged.ts:77-89). -/
def mergedRun (w : String → GitRepo) (targetDir branchName baseBranch : String)
    (fetch : Bool) (ps : List String) (k : Nat) :
    List MergeCheckResult × List (Nat × Nat) :=
  runWaves (fun p => (processProjectM (w p) p targetDir branchName baseBranch fetch).1) ps k

/-- Ordered resolution candidates per the spec's wording: the local name
first, then the origin-qualified remote-tracking name. -/
def resolutionCandidates (name : String) : List String :=
  [name, "origin/" ++ name]

/-- Spec-side description of ref resolution, following the spec's words: an
explicit ordered list of resolution strategies evaluated in sequence with
short-circuit on first success; if none succeeds, exists=false and the
requested name is retained. -/
def resolveRefSpec (r : GitRepo) (name : String) : Bool × String :=
  match (resolutionCandidates name).find? (fun c => r.verify c) with
  | some c => (true, c)
  | none => (false, name)

/-- A repository with no refs at all and a working remote. -/
def repoNone : GitRepo :=
  { fetchOk := true,
    verify := fun _ => false,
    revParse := fun _ => none,
    commitDate := fun _ => none,
    isAncestor := fun _ _ => false,
    revListCount := fun _ _ => none,
    mergeGrep := fun _ _ => none }

/-- A repository with no refs whose git fetch fails (e.g. times out). -/
def repoFetchFail : GitRepo :=
  { repoNone with fetchOk := false }

/-- A repository where branch b exists only as origin/b, master m is local,
b is behind m, and rev-list succeeds only on the resolved pair
origin/b..m with a count of 3.  The requested pair b..m fails because b is
not a known local revision. -/
def repoC1 : GitRepo :=
  { fetchOk := true,
    verify := fun s => s == "m" || s == "origin/b",
    revParse := fun s =>
      if s == "m" then some "M" else if s == "origin/b" then some "B" else none,
    commitDate := fun _ => none,
    isAncestor := fun _ _ => false,
    revListCount := fun lo hi =>
      if lo == "origin/b" && hi == "m" then some "3" else none,
    mergeGrep := fun _ _ => none }

/-- A repository where branch b and master m both exist locally, b's commit B
is an ancestor of m's commit M (merged) but M is not an ancestor of B (not up
to date), and b is 3 commits behind m. -/
def repoBoth : GitRepo :=
  { fetchOk := true,
    verify := fun s => s == "b" || s == "m",
    revParse := fun s =>
      if s == "b" then some "B" else if s == "m" then some "M" else none,
    commitDate := fun _ => none,
    isAncestor := fun a b => a == "B" && b == "M",
    revListCount := fun _ _ => some "3",
    mergeGrep := fun _ _ => some "" }

/-- A repository where every ref verifies but rev-parse then fails, modelling
a ref that disappears mid-inspection: the merge-status block throws and the
error is captured. -/
def repoBad : GitRepo :=
  { repoNone with verify := fun _ => true }

/-- A world of repositories in which project bad fails mid-inspection and
every other project inspects cleanly. -/
def worldA : String → GitRepo :=
  fun p => if p == "bad" then repoBad else repoBoth

/-- With a positive wave size and enough fuel, the wave loop's result list is
exactly the job mapped over the remaining projects, in order. -/
theorem runWavesFrom_fst {α : Type} (job : String → α) (ps : List String) (k : Nat)
    (hk : 0 < k) : ∀ fuel i, ps.length - i ≤ fuel →
    (runWavesFrom job ps k i fuel).1 = (ps.drop i).map job := by
  intro fuel
  induction fuel with
  | zero =>
    intro i h
    have hle : ps.length ≤ i := by omega
    simp [runWavesFrom, List.drop_eq_nil_of_le hle]
  | succ f ih =>
    intro i h
    by_cases hi : i < ps.length
    · simp only [runWavesFrom, if_pos hi]
      rw [ih (i + k) (by omega), ← List.map_append]
      congr 1
      have hdd : ps.drop (i + k) = (ps.drop i).drop k := by
        rw [List.drop_drop, Nat.add_comm]
      rw [hdd, List.take_append_drop]
    · have hle : ps.length ≤ i := by omega
      simp [runWavesFrom, hi, List.drop_eq_nil_of_le hle]

/-- The progress component of the wave loop does not depend on the job. -/
theorem runWavesFrom_snd_indep {α β : Type} (job : String → α) (job' : String → β)
    (ps : List String) (k : Nat) : ∀ fuel i,
    (runWavesFrom job ps k i fuel).2 = (runWavesFrom job' ps k i fuel).2 := by
  intro fuel
  induction fuel with
  | zero => intro i; simp [runWavesFrom]
  | succ f ih =>
    intro i
    by_cases hi : i < ps.length
    · simp only [runWavesFrom, if_pos hi]
      rw [ih (i + k)]
    · simp [runWavesFrom, hi]

/-- Every progress update carries the total as its second component, reports
at most the total, and reports at least min(i + k, total). -/
theorem runWavesFrom_prog_mem {α : Type} (job : String → α) (ps : List String) (k : Nat) :
    ∀ fuel i, ∀ pr ∈ (runWavesFrom job ps k i fuel).2,
      pr.2 = ps.length ∧ pr.1 ≤ ps.length ∧ min (i + k) ps.length ≤ pr.1 := by
  intro fuel
  induction fuel with
  | zero => intro i pr hpr; simp [runWavesFrom] at hpr
  | succ f ih =>
    intro i pr hpr
    by_cases hi : i < ps.length
    · simp only [runWavesFrom, if_pos hi, List.mem_cons] at hpr
      rcases hpr with rfl | hpr
      · exact ⟨rfl, Nat.min_le_right _ _, le_refl _⟩
      · obtain ⟨h1, h2, h3⟩ := ih (i + k) pr hpr
        exact ⟨h1, h2, le_trans (min_le_min (by omega) (le_refl _)) h3⟩
    · simp [runWavesFrom, hi] at hpr

/-- Successive progress updates report non-decreasing completed counts. -/
theorem runWavesFrom_prog_chain {α : Type} (job : String → α) (ps : List String) (k : Nat) :
    ∀ fuel i,
      List.Chain' (fun a b : Nat × Nat => a.1 ≤ b.1) (runWavesFrom job ps k i fuel).2 := by
  intro fuel
  induction fuel with
  | zero => intro i; simp [runWavesFrom]
  | succ f ih =>
    intro i
    by_cases hi : i < ps.length
    · simp only [runWavesFrom, if_pos hi]
      rw [List.chain'_cons']
      refine ⟨?_, ih (i + k)⟩
      intro b hb
      have hmem : b ∈ (runWavesFrom job ps k (i + k) f).2 := List.mem_of_mem_head? hb
      have h3 := (runWavesFrom_prog_mem job ps k f (i + k) b hmem).2.2
      exact le_trans (min_le_min (by omega) (le_refl _)) h3
    · simp [runWavesFrom, hi]

/-- With positive fuel and work remaining, the wave loop emits at least one
progress update. -/
theorem runWavesFrom_prog_ne_nil {α : Type} (job : String → α) (ps : List String)
    (k fuel i : Nat) (hf : 0 < fuel) (hi : i < ps.length) :
    (runWavesFrom job ps k i fuel).2 ≠ [] := by
  obtain ⟨f, rfl⟩ := Nat.exists_eq_succ_of_ne_zero (by omega : fuel ≠ 0)
  simp [runWavesFrom, hi]

/-- With no work remaining, the wave loop emits no progress update. -/
theorem runWavesFrom_prog_nil {α : Type} (job : String → α) (ps : List String)
    (k fuel i : Nat) (hi : ps.length ≤ i) :
    (runWavesFrom job ps k i fuel).2 = [] := by
  cases fuel with
  | zero => simp [runWavesFrom]
  | succ f => simp [runWavesFrom, Nat.not_lt.mpr hi]

/-- The last progress update reports completed = total. -/
theorem runWavesFrom_prog_last {α : Type} (job : String → α) (ps : List String) (k : Nat)
    (hk : 0 < k) : ∀ fuel i, ps.length - i ≤ fuel → i < ps.length →
    (runWavesFrom job ps k i fuel).2.getLast? = some (ps.length, ps.length) := by
  intro fuel
  induction fuel with
  | zero => intro i h hi; omega
  | succ f ih =>
    intro i h hi
    simp only [runWavesFrom, if_pos hi]
    by_cases hik : i + k < ps.length
    · have hne : (runWavesFrom job ps k (i + k) f).2 ≠ [] :=
        runWavesFrom_prog_ne_nil job ps k f (i + k) (by omega) hik
      obtain ⟨c, t, hct⟩ := List.exists_cons_of_ne_nil hne
      rw [hct, List.getLast?_cons_cons, ← hct]
      exact ih (i + k) (by omega) hik
    · rw [runWavesFrom_prog_nil job ps k f (i + k) (by omega)]
      simp [Nat.min_eq_right (by omega : ps.length ≤ i + k)]

/-- The number of progress updates is the number of waves,
ceil((total - i) / k). -/
theorem runWavesFrom_prog_len {α : Type} (job : String → α) (ps : List String) (k : Nat)
    (hk : 0 < k) : ∀ fuel i, ps.length - i ≤ fuel →
    (runWavesFrom job ps k i fuel).2.length = (ps.length - i + k - 1) / k := by
  intro fuel
  induction fuel with
  | zero =>
    intro i h
    have h0 : ps.length - i = 0 := by omega
    rw [h0]
    simp [runWavesFrom, Nat.div_eq_of_lt (by omega : k - 1 < k)]
  | succ f ih =>
    intro i h
    by_cases hi : i < ps.length
    · simp only [runWavesFrom, if_pos hi, List.length_cons]
      rw [ih (i + k) (by omega)]
      rcases le_or_lt (ps.length - i) k with hle | hlt
      · have h1 : ps.length - (i + k) = 0 := by omega
        have h2 : ps.length - i + k - 1 = (ps.length - i - 1) + k := by omega
        rw [h1, h2, Nat.add_div_right _ hk,
            Nat.div_eq_of_lt (by omega : ps.length - i - 1 < k)]
        simp [Nat.div_eq_of_lt (by omega : k - 1 < k)]
      · have h2 : ps.length - i + k - 1 = (ps.length - (i + k) + k - 1) + k := by omega
        rw [h2, Nat.add_div_right _ hk]
    · have h0 : ps.length - i = 0 := by omega
      rw [h0]
      simp [runWavesFrom, hi, Nat.div_eq_of_lt (by omega : k - 1 < k)]

theorem resolveRef_snd_eq (r : GitRepo) (name : String) :
    (resolveRef r name).2 = GitCall.verify name ::
      (if r.verify name then ([] : List GitCall)
       else [GitCall.verify ("origin/" ++ name)]) := by
  by_cases h1 : r.verify name
  · simp [resolveRef, h1]
  · by_cases h2 : r.verify ("origin/" ++ name) <;> simp [resolveRef, h1, h2]

theorem mem_resolveRef_snd {r : GitRepo} {name : String} {c : GitCall}
    (h : c ∈ (resolveRef r name).2) :
    c = GitCall.verify name ∨ c = GitCall.verify ("origin/" ++ name) := by
  rw [resolveRef_snd_eq] at h
  by_cases h1 : r.verify name
  · rw [if_pos h1] at h
    simp at h
    exact Or.inl h
  · rw [if_neg h1] at h
    simp at h
    exact h

theorem processProjectU_short (r : GitRepo) (pn td bn bb : String) (f : Bool)
    (h : ((resolveRef r bn).1.1 && (resolveRef r bb).1.1) = false) :
    processProjectU r pn td bn bb f =
      ({ name := pn, path := td ++ "/" ++ pn,
         branchExists := (resolveRef r bn).1.1, masterExists := (resolveRef r bb).1.1,
         hasMasterChanges := false, isUpToDate := false, behindCommits := 0,
         error := if f && !r.fetchOk then some fetchFailMsg else none,
         fetchSuccess := if f then r.fetchOk else true },
       (if f then [GitCall.fetch] else []) ++ (resolveRef r bb).2 ++ (resolveRef r bn).2) := by
  simp only [processProjectU]
  rw [h]
  simp

theorem processProjectU_main (r : GitRepo) (pn td bn bb : String) (f : Bool)
    (bc mc : String)
    (hb : (resolveRef r bn).1.1 = true) (hm : (resolveRef r bb).1.1 = true)
    (hrm : r.revParse ((resolveRef r bb).1.2) = some mc)
    (hrb : r.revParse ((resolveRef r bn).1.2) = some bc) :
    (processProjectU r pn td bn bb f).1.isUpToDate = r.isAncestor mc bc
    ∧ (processProjectU r pn td bn bb f).1.hasMasterChanges = !(r.isAncestor mc bc)
    ∧ (processProjectU r pn td bn bb f).1.behindCommits =
        (if r.isAncestor mc bc then 0 else
          match r.revListCount bn bb with
          | some s => jsParseIntOr0 s
          | none => 0)
    ∧ (processProjectU r pn td bn bb f).1.error
        = (if f && !r.fetchOk then some fetchFailMsg else none) := by
  simp only [processProjectU, hb, hm, Bool.and_self, if_true]
  rw [hrm, hrb]
  by_cases ha : r.isAncestor mc bc <;> simp [ha]



theorem processProjectM_short (r : GitRepo) (pn td bn bb : String) (f : Bool)
    (h : ((resolveRef r bn).1.1 && (resolveRef r bb).1.1) = false) :
    processProjectM r pn td bn bb f =
      ({ name := pn, path := td ++ "/" ++ pn,
         branchExists := (resolveRef r bn).1.1, masterExists := (resolveRef r bb).1.1,
         isMerged := false,
         error := if f && !r.fetchOk then some fetchFailMsg else none,
         fetchSuccess := if f then r.fetchOk else true },
       (if f then [GitCall.fetch] else []) ++ (resolveRef r bb).2 ++ (resolveRef r bn).2) := by
  simp only [processProjectM]
  rw [h]
  simp

theorem processProjectM_main (r : GitRepo) (pn td bn bb : String) (f : Bool)
    (bc mc : String)
    (hb : (resolveRef r bn).1.1 = true) (hm : (resolveRef r bb).1.1 = true)
    (hrb : r.revParse ((resolveRef r bn).1.2) = some bc)
    (hrm : r.revParse ((resolveRef r bb).1.2) = some mc) :
    (processProjectM r pn td bn bb f).1.isMerged = r.isAncestor bc mc
    ∧ (processProjectM r pn td bn bb f).1.error
        = (if f && !r.fetchOk then some fetchFailMsg else none) := by
  simp only [processProjectM, hb, hm, Bool.and_self, if_true]
  rw [hrb, hrm]
  by_cases ha : r.isAncestor bc mc <;> simp [ha]

theorem processProjectU_midfail (r : GitRepo) (pn td bn bb : String) (f : Bool)
    (hb : (resolveRef r bn).1.1 = true) (hm : (resolveRef r bb).1.1 = true)
    (hfail : r.revParse ((resolveRef r bb).1.2) = none
           ∨ r.revParse ((resolveRef r bn).1.2) = none) :
    (processProjectU r pn td bn bb f).1.error = some checkFailMsg
    ∧ (processProjectU r pn td bn bb f).1.behindCommits = 0
    ∧ (processProjectU r pn td bn bb f).1.isUpToDate = false := by
  simp only [processProjectU, hb, hm, Bool.and_self, if_true]
  cases hrm : r.revParse ((resolveRef r bb).1.2) with
  | none => simp
  | some mc =>
    cases hrb : r.revParse ((resolveRef r bn).1.2) with
    | none => simp
    | some bc =>
      rw [hrm, hrb] at hfail
      rcases hfail with h | h <;> exact absurd h (by simp)

theorem processProjectM_midfail (r : GitRepo) (pn td bn bb : String) (f : Bool)
    (hb : (resolveRef r bn).1.1 = true) (hm : (resolveRef r bb).1.1 = true)
    (hfail : r.revParse ((resolveRef r bb).1.2) = none
           ∨ r.revParse ((resolveRef r bn).1.2) = none) :
    (processProjectM r pn td bn bb f).1.error = some checkFailMsg
    ∧ (processProjectM r pn td bn bb f).1.isMerged = false := by
  simp only [processProjectM, hb, hm, Bool.and_self, if_true]
  cases hrb : r.revParse ((resolveRef r bn).1.2) with
  | none => simp
  | some bc =>
    cases hrm : r.revParse ((resolveRef r bb).1.2) with
    | none => simp
    | some mc =>
      rw [hrm, hrb] at hfail
      rcases hfail with h | h <;> exact absurd h (by simp)

theorem processProjectM_no_revListCount (r : GitRepo) (pn td bn bb : String) (f : Bool)
    (a b : String) : GitCall.revListCount a b ∉ (processProjectM r pn td bn bb f).2 := by
  intro hmem
  simp only [processProjectM] at hmem
  repeat' split at hmem
  all_goals simp only [resolveRef_snd_eq] at hmem
  all_goals split_ifs at hmem <;> simp_all


/-- A repository like repoBoth but whose branch is not merged and not up to
date: the ancestor check fails in both directions. -/
def repoBehind : GitRepo :=
  { repoBoth with isAncestor := fun _ _ => false }

/-- Fields of the uptodate result that are fixed before the merge-status
block: existence flags come from resolution, fetchSuccess from the fetch
stage. -/
theorem processProjectU_fields (r : GitRepo) (pn td bn bb : String) (f : Bool) :
    (processProjectU r pn td bn bb f).1.branchExists = (resolveRef r bn).1.1
    ∧ (processProjectU r pn td bn bb f).1.masterExists = (resolveRef r bb).1.1
    ∧ (processProjectU r pn td bn bb f).1.fetchSuccess = (if f then r.fetchOk else true) := by
  simp only [processProjectU]
  repeat' split
  all_goals exact ⟨rfl, rfl, rfl⟩

/-- Fields of the merged result that are fixed before the merge-status
block. -/
theorem processProjectM_fields (r : GitRepo) (pn td bn bb : String) (f : Bool) :
    (processProjectM r pn td bn bb f).1.branchExists = (resolveRef r bn).1.1
    ∧ (processProjectM r pn td bn bb f).1.masterExists = (resolveRef r bb).1.1
    ∧ (processProjectM r pn td bn bb f).1.fetchSuccess = (if f then r.fetchOk else true) := by
  simp only [processProjectM]
  repeat' split
  all_goals exact ⟨rfl, rfl, rfl⟩

/-- Elements of the pre-merge-status log are fetch or verify calls only. -/
theorem mem_short_log (r : GitRepo) (bn bb : String) (f : Bool) (c : GitCall)
    (hc : c ∈ (if f then [GitCall.fetch] else ([] : List GitCall))
            ++ (resolveRef r bb).2 ++ (resolveRef r bn).2) :
    c = GitCall.fetch ∨ ∃ x, c = GitCall.verify x := by
  rcases List.mem_append.mp hc with hc | hc
  · rcases List.mem_append.mp hc with hc | hc
    · split at hc
      · simp at hc
        exact Or.inl hc
      · simp at hc
    · rcases mem_resolveRef_snd hc with h | h <;> exact Or.inr ⟨_, h⟩
  · rcases mem_resolveRef_snd hc with h | h <;> exact Or.inr ⟨_, h⟩



/-- C1: the uptodate inspection evaluated at the claim's scenario: branch b
exists only as origin/b and is 3 commits behind master m.  Resolution uses
the remote-tracking fallback and the ancestry check fails as claimed, but
the emitted result has behindCommits = 0, not 3: the rev-list call at
uptodate.ts:252 uses the requested names b..m, which git rejects because b
is not a known local revision, while the resolved pair origin/b..m would
report 3. -/
theorem claim1_drift_uses_requested_names :
    (processProjectU repoC1 "p" "d" "b" "m" false).1.branchExists = true
    ∧ (processProjectU repoC1 "p" "d" "b" "m" false).1.masterExists = true
    ∧ (processProjectU repoC1 "p" "d" "b" "m" false).1.lastBranchCommit = some "B"
    ∧ (processProjectU repoC1 "p" "d" "b" "m" false).1.isUpToDate = false
    ∧ (processProjectU repoC1 "p" "d" "b" "m" false).1.hasMasterChanges = true
    ∧ (processProjectU repoC1 "p" "d" "b" "m" false).1.error = none
    ∧ (processProjectU repoC1 "p" "d" "b" "m" false).1.behindCommits = 0
    ∧ repoC1.revListCount "b" "m" = none
    ∧ repoC1.revListCount "origin/b" "m" = some "3"
    ∧ jsParseIntOr0 "3" = 3 := by
  decide

/-- C2 counterexample: a repository with a failed fetch and a missing branch
produces a result whose error field is set (to the fetch failure), refuting
the claim that the error field is unset regardless of whether the
pre-inspection fetch succeeded or failed. -/
theorem claim2_counterexample :
    (processProjectU repoFetchFail "p" "d" "b" "m" true).1.branchExists = false
    ∧ (processProjectU repoFetchFail "p" "d" "b" "m" true).1.isUpToDate = false
    ∧ (processProjectU repoFetchFail "p" "d" "b" "m" true).1.error = some fetchFailMsg
    ∧ (processProjectM repoFetchFail "p" "d" "b" "m" true).1.branchExists = false
    ∧ (processProjectM repoFetchFail "p" "d" "b" "m" true).1.error = some fetchFailMsg := by
  decide

/-- C2 (amended): when either ref fails to resolve, both commands
short-circuit: the verdict flags are false, no drift is recorded, no
rev-parse, ancestry or rev-list call is made, and the error field is unset
whenever the fetch succeeded or was skipped; if the fetch failed it holds
exactly the fetch failure. -/
theorem claim2_missing_ref_short_circuit (r : GitRepo) (pn td bn bb : String) (f : Bool)
    (hmiss : (processProjectU r pn td bn bb f).1.branchExists = false
           ∨ (processProjectU r pn td bn bb f).1.masterExists = false) :
    (processProjectU r pn td bn bb f).1.isUpToDate = false
    ∧ (processProjectU r pn td bn bb f).1.hasMasterChanges = false
    ∧ (processProjectU r pn td bn bb f).1.behindCommits = 0
    ∧ (processProjectU r pn td bn bb f).1.lastBranchCommit = none
    ∧ (processProjectU r pn td bn bb f).1.lastMasterCommit = none
    ∧ (processProjectU r pn td bn bb f).1.error
        = (if f && !r.fetchOk then some fetchFailMsg else none)
    ∧ (∀ a b, GitCall.ancestor a b ∉ (processProjectU r pn td bn bb f).2)
    ∧ (∀ c, GitCall.revParse c ∉ (processProjectU r pn td bn bb f).2)
    ∧ (∀ a b, GitCall.revListCount a b ∉ (processProjectU r pn td bn bb f).2)
    ∧ (processProjectM r pn td bn bb f).1.isMerged = false
    ∧ (processProjectM r pn td bn bb f).1.error
        = (if f && !r.fetchOk then some fetchFailMsg else none)
    ∧ (∀ a b, GitCall.ancestor a b ∉ (processProjectM r pn td bn bb f).2) := by
  have hcond : ((resolveRef r bn).1.1 && (resolveRef r bb).1.1) = false := by
    rcases hmiss with h | h
    · rw [(processProjectU_fields r pn td bn bb f).1] at h
      simp [h]
    · rw [(processProjectU_fields r pn td bn bb f).2.1] at h
      simp [h]
  have hsU := processProjectU_short r pn td bn bb f hcond
  have hsM := processProjectM_short r pn td bn bb f hcond
  rw [hsU, hsM]
  refine ⟨rfl, rfl, rfl, rfl, rfl, rfl, ?_, ?_, ?_, rfl, rfl, ?_⟩
  · intro a b hc
    rcases mem_short_log r bn bb f _ hc with h | ⟨x, h⟩ <;> simp at h
  · intro c hc
    rcases mem_short_log r bn bb f _ hc with h | ⟨x, h⟩ <;> simp at h
  · intro a b hc
    rcases mem_short_log r bn bb f _ hc with h | ⟨x, h⟩ <;> simp at h
  · intro a b hc
    rcases mem_short_log r bn bb f _ hc with h | ⟨x, h⟩ <;> simp at h

/-- C2 witness: a repository with no refs at all, fetch skipped. -/
theorem claim2_witness :
    (processProjectU repoNone "p" "d" "b" "m" false).1.isUpToDate = false
    ∧ (processProjectU repoNone "p" "d" "b" "m" false).1.error = none := by
  have h := claim2_missing_ref_short_circuit repoNone "p" "d" "b" "m" false
    (Or.inl (by decide))
  exact ⟨h.1, by rw [h.2.2.2.2.2.1]; rfl⟩



/-- C3: with both refs resolved and their commits read, the merged verdict
is exactly "branch commit is an ancestor of base commit" and the uptodate
verdict is exactly "base commit is an ancestor of branch commit". -/
theorem claim3_verdict_iff_ancestry (r : GitRepo) (pn td bn bb : String) (f : Bool)
    (bc mc : String)
    (hb : (resolveRef r bn).1.1 = true) (hm : (resolveRef r bb).1.1 = true)
    (hrb : r.revParse ((resolveRef r bn).1.2) = some bc)
    (hrm : r.revParse ((resolveRef r bb).1.2) = some mc) :
    ((processProjectM r pn td bn bb f).1.isMerged = true ↔ r.isAncestor bc mc = true)
    ∧ ((processProjectU r pn td bn bb f).1.isUpToDate = true ↔ r.isAncestor mc bc = true) := by
  have h1 := (processProjectM_main r pn td bn bb f bc mc hb hm hrb hrm).1
  have h2 := (processProjectU_main r pn td bn bb f bc mc hb hm hrm hrb).1
  exact ⟨by rw [h1], by rw [h2]⟩

/-- C3 witness: branch b at commit B merged into master m at commit M, but
not up to date with it. -/
theorem claim3_witness :
    ((processProjectM repoBoth "p" "d" "b" "m" false).1.isMerged = true
      ↔ repoBoth.isAncestor "B" "M" = true)
    ∧ ((processProjectU repoBoth "p" "d" "b" "m" false).1.isUpToDate = true
      ↔ repoBoth.isAncestor "M" "B" = true) :=
  claim3_verdict_iff_ancestry repoBoth "p" "d" "b" "m" false "B" "M"
    (by decide) (by decide) (by decide) (by decide)

/-- C4: ref resolution tries the local name first and the origin-qualified
name only when the local attempt fails (the call log shows the order); its
outcome coincides with the spec's ordered-strategy description; and when
both attempts fail the inspection result has exists=false, no commit hash,
and no error beyond a prior fetch failure. -/
theorem claim4_two_tier_resolution (r : GitRepo) (pn td bn bb : String) (f : Bool) :
    (∀ name, (resolveRef r name).1 = resolveRefSpec r name)
    ∧ (∀ name, (resolveRef r name).2
        = GitCall.verify name ::
            (if r.verify name then ([] : List GitCall)
             else [GitCall.verify ("origin/" ++ name)]))
    ∧ (r.verify bn = false → r.verify ("origin/" ++ bn) = false →
        (processProjectU r pn td bn bb f).1.branchExists = false
        ∧ (processProjectU r pn td bn bb f).1.lastBranchCommit = none
        ∧ (processProjectU r pn td bn bb f).1.error
            = (if f && !r.fetchOk then some fetchFailMsg else none)) := by
  refine ⟨?_, fun name => resolveRef_snd_eq r name, ?_⟩
  · intro name
    by_cases h1 : r.verify name
    · simp [resolveRef, resolveRefSpec, resolutionCandidates, List.find?, h1]
    · by_cases h2 : r.verify ("origin/" ++ name) <;>
        simp [resolveRef, resolveRefSpec, resolutionCandidates, List.find?, h1, h2]
  · intro h1 h2
    have hcond : ((resolveRef r bn).1.1 && (resolveRef r bb).1.1) = false := by
      simp [resolveRef, h1, h2]
    rw [processProjectU_short r pn td bn bb f hcond]
    exact ⟨by simp [resolveRef, h1, h2], rfl, rfl⟩

/-- C4 witness: in repoC1 the branch b resolves through the fallback; in
repoNone it does not resolve at all. -/
theorem claim4_witness :
    (resolveRef repoC1 "b").1 = resolveRefSpec repoC1 "b"
    ∧ (resolveRef repoC1 "b").2
        = [GitCall.verify "b", GitCall.verify ("origin/" ++ "b")]
    ∧ (processProjectU repoNone "p" "d" "b" "m" false).1.branchExists = false := by
  have h1 := claim4_two_tier_resolution repoC1 "p" "d" "b" "m" false
  have h2 := claim4_two_tier_resolution repoNone "p" "d" "b" "m" false
  refine ⟨h1.1 "b", ?_, (h2.2.2 (by decide) (by decide)).1⟩
  rw [h1.2.1 "b"]
  decide

/-- C5 counterexample: a repository where both refs resolve and the merged
direction is not satisfied, yet the full call log of the merged inspection
contains no rev-list count invocation: the BranchIntoBase direction never
computes a drift count (its result record has no such field). -/
theorem claim5_counterexample :
    (processProjectM repoBehind "p" "d" "b" "m" false).1.branchExists = true
    ∧ (processProjectM repoBehind "p" "d" "b" "m" false).1.masterExists = true
    ∧ (processProjectM repoBehind "p" "d" "b" "m" false).1.isMerged = false
    ∧ (processProjectM repoBehind "p" "d" "b" "m" false).1.error = none
    ∧ (processProjectM repoBehind "p" "d" "b" "m" false).2
        = [GitCall.verify "m", GitCall.verify "b", GitCall.revParse "b",
           GitCall.revParse "m", GitCall.ancestor "B" "M"] := by
  decide

/-- C5 (amended): when both refs resolve and the uptodate direction's check
fails, the uptodate result records as drift count the value parsed from
rev-list over the requested names, 0 when that call fails; the merged
direction performs no rev-list count call at all. -/
theorem claim5_drift_only_uptodate (r : GitRepo) (pn td bn bb : String) (f : Bool)
    (bc mc : String)
    (hb : (resolveRef r bn).1.1 = true) (hm : (resolveRef r bb).1.1 = true)
    (hrb : r.revParse ((resolveRef r bn).1.2) = some bc)
    (hrm : r.revParse ((resolveRef r bb).1.2) = some mc)
    (hna : r.isAncestor mc bc = false) :
    (processProjectU r pn td bn bb f).1.hasMasterChanges = true
    ∧ (processProjectU r pn td bn bb f).1.behindCommits
        = (match r.revListCount bn bb with
           | some s => jsParseIntOr0 s
           | none => 0)
    ∧ GitCall.revListCount bn bb ∈ (processProjectU r pn td bn bb f).2
    ∧ (∀ a b, GitCall.revListCount a b ∉ (processProjectM r pn td bn bb f).2) := by
  have h := processProjectU_main r pn td bn bb f bc mc hb hm hrm hrb
  refine ⟨?_, ?_, ?_, fun a b => processProjectM_no_revListCount r pn td bn bb f a b⟩
  · rw [h.2.1, hna]
    rfl
  · rw [h.2.2.1, if_neg (by simp [hna])]
  · simp only [processProjectU, hb, hm, Bool.and_self, if_true]
    rw [hrm, hrb]
    simp [hna]

/-- C5 witness: branch b is 3 commits behind in repoBehind. -/
theorem claim5_witness :
    (processProjectU repoBehind "p" "d" "b" "m" false).1.behindCommits = 3 := by
  have h := claim5_drift_only_uptodate repoBehind "p" "d" "b" "m" false "B" "M"
    (by decide) (by decide) (by decide) (by decide) (by decide)
  rw [h.2.1]
  decide

/-- C10: with the pre-inspection fetch disabled both commands report
fetchSuccess = true, the same value reported when the fetch runs and
succeeds, so a skipped fetch is indistinguishable in the result record from
a successful one. -/
theorem claim10_skipped_fetch_reports_success (r : GitRepo) (pn td bn bb : String) :
    (processProjectU r pn td bn bb false).1.fetchSuccess = true
    ∧ (processProjectM r pn td bn bb false).1.fetchSuccess = true
    ∧ (processProjectU r pn td bn bb true).1.fetchSuccess = r.fetchOk
    ∧ (processProjectM r pn td bn bb true).1.fetchSuccess = r.fetchOk := by
  refine ⟨?_, ?_, ?_, ?_⟩
  · rw [(processProjectU_fields r pn td bn bb false).2.2]
    rfl
  · rw [(processProjectM_fields r pn td bn bb false).2.2]
    rfl
  · rw [(processProjectU_fields r pn td bn bb true).2.2]
    rfl
  · rw [(processProjectM_fields r pn td bn bb true).2.2]
    rfl



/-- The uptodate batch run equals the per-project inspection mapped over the
discovered projects. -/
theorem uptodateRun_eq_map (w : String → GitRepo) (td bn bb : String) (f : Bool)
    (ps : List String) (k : Nat) (hk : 0 < k) :
    (uptodateRun w td bn bb f ps k).1
      = ps.map (fun p => (processProjectU (w p) p td bn bb f).1) := by
  have h := runWavesFrom_fst (fun p => (processProjectU (w p) p td bn bb f).1)
    ps k hk (ps.length + 1) 0 (by omega)
  simpa [uptodateRun, runWaves] using h

/-- The merged batch run equals the per-project inspection mapped over the
discovered projects. -/
theorem mergedRun_eq_map (w : String → GitRepo) (td bn bb : String) (f : Bool)
    (ps : List String) (k : Nat) (hk : 0 < k) :
    (mergedRun w td bn bb f ps k).1
      = ps.map (fun p => (processProjectM (w p) p td bn bb f).1) := by
  have h := runWavesFrom_fst (fun p => (processProjectM (w p) p td bn bb f).1)
    ps k hk (ps.length + 1) 0 (by omega)
  simpa [mergedRun, runWaves] using h

/-- C6: per-repository failures are data, not control flow: each batch emits
exactly one result per discovered project, the i-th result depends only on
the i-th project's own repository, and a repository whose merge-status block
throws (a ref that verifies but no longer rev-parses) still yields a result
whose error field is set to the captured message. -/
theorem claim6_failure_isolated (w : String → GitRepo) (td bn bb : String) (f : Bool)
    (ps : List String) (k : Nat) (hk : 0 < k) :
    (uptodateRun w td bn bb f ps k).1.length = ps.length
    ∧ (mergedRun w td bn bb f ps k).1.length = ps.length
    ∧ (∀ i (hi : i < ps.length) (hu : i < (uptodateRun w td bn bb f ps k).1.length),
        (uptodateRun w td bn bb f ps k).1.get ⟨i, hu⟩
          = (processProjectU (w (ps.get ⟨i, hi⟩)) (ps.get ⟨i, hi⟩) td bn bb f).1)
    ∧ (∀ i (hi : i < ps.length) (hm : i < (mergedRun w td bn bb f ps k).1.length),
        (mergedRun w td bn bb f ps k).1.get ⟨i, hm⟩
          = (processProjectM (w (ps.get ⟨i, hi⟩)) (ps.get ⟨i, hi⟩) td bn bb f).1)
    ∧ (∀ (r : GitRepo) (pn : String),
        (resolveRef r bn).1.1 = true → (resolveRef r bb).1.1 = true →
        (r.revParse ((resolveRef r bb).1.2) = none
          ∨ r.revParse ((resolveRef r bn).1.2) = none) →
        (processProjectU r pn td bn bb f).1.error = some checkFailMsg
        ∧ (processProjectM r pn td bn bb f).1.error = some checkFailMsg) := by
  have hU := uptodateRun_eq_map w td bn bb f ps k hk
  have hM := mergedRun_eq_map w td bn bb f ps k hk
  refine ⟨by rw [hU]; simp, by rw [hM]; simp, ?_, ?_, ?_⟩
  · intro i hi hu
    have hg := List.get_of_eq hU ⟨i, hu⟩
    rw [hg]
    simp
  · intro i hi hm
    have hg := List.get_of_eq hM ⟨i, hm⟩
    rw [hg]
    simp
  · intro r pn hbr hms hfail
    exact ⟨(processProjectU_midfail r pn td bn bb f hbr hms hfail).1,
           (processProjectM_midfail r pn td bn bb f hbr hms hfail).1⟩

/-- C6 witness: a two-project world where project bad fails mid-inspection;
both results are still emitted and the failing one carries the error. -/
theorem claim6_witness :
    (uptodateRun worldA "d" "b" "m" false ["good", "bad"] 1).1.length = 2
    ∧ (processProjectU repoBad "bad" "d" "b" "m" false).1.error = some checkFailMsg := by
  have h := claim6_failure_isolated worldA "d" "b" "m" false ["good", "bad"] 1 (by decide)
  exact ⟨h.1, (h.2.2.2.2 repoBad "bad" (by decide) (by decide) (Or.inl (by decide))).1⟩

/-- C7: the order of results in either batch equals discovery order: the
result list is the inspection mapped over the discovered project list. -/
theorem claim7_results_in_discovery_order (w : String → GitRepo) (td bn bb : String)
    (f : Bool) (ps : List String) (k : Nat) (hk : 0 < k) :
    (uptodateRun w td bn bb f ps k).1
      = ps.map (fun p => (processProjectU (w p) p td bn bb f).1)
    ∧ (mergedRun w td bn bb f ps k).1
      = ps.map (fun p => (processProjectM (w p) p td bn bb f).1) :=
  ⟨uptodateRun_eq_map w td bn bb f ps k hk, mergedRun_eq_map w td bn bb f ps k hk⟩

/-- C7 witness: three projects in two waves keep discovery order. -/
theorem claim7_witness :
    (uptodateRun worldA "d" "b" "m" false ["a", "bad", "c"] 2).1
      = ["a", "bad", "c"].map
          (fun p => (processProjectU (worldA p) p "d" "b" "m" false).1)
    ∧ (mergedRun worldA "d" "b" "m" false ["a", "bad", "c"] 2).1
      = ["a", "bad", "c"].map
          (fun p => (processProjectM (worldA p) p "d" "b" "m" false).1) :=
  claim7_results_in_discovery_order worldA "d" "b" "m" false ["a", "bad", "c"] 2
    (by decide)

/-- C8: progress is reported once per wave with the cumulative count and the
total: the update sequence is monotone in the completed count, every update
carries the total, there are exactly ceil(total/k) updates, and when any
project exists the last update reports completed = total.  Both commands
produce the same update sequence. -/
theorem claim8_progress_reporting (w : String → GitRepo) (td bn bb : String) (f : Bool)
    (ps : List String) (k : Nat) (hk : 0 < k) :
    List.Chain' (fun a b : Nat × Nat => a.1 ≤ b.1) (uptodateRun w td bn bb f ps k).2
    ∧ (∀ pr ∈ (uptodateRun w td bn bb f ps k).2, pr.2 = ps.length ∧ pr.1 ≤ ps.length)
    ∧ (uptodateRun w td bn bb f ps k).2.length = (ps.length + k - 1) / k
    ∧ (ps ≠ [] →
        (uptodateRun w td bn bb f ps k).2.getLast? = some (ps.length, ps.length))
    ∧ (mergedRun w td bn bb f ps k).2 = (uptodateRun w td bn bb f ps k).2 := by
  refine ⟨?_, ?_, ?_, ?_, ?_⟩
  · exact runWavesFrom_prog_chain _ ps k (ps.length + 1) 0
  · intro pr hpr
    have h := runWavesFrom_prog_mem _ ps k (ps.length + 1) 0 pr hpr
    exact ⟨h.1, h.2.1⟩
  · have h := runWavesFrom_prog_len
      (fun p => (processProjectU (w p) p td bn bb f).1) ps k hk
      (ps.length + 1) 0 (by omega)
    simpa [uptodateRun, runWaves] using h
  · intro hne
    have hlen : 0 < ps.length := List.length_pos.mpr hne
    exact runWavesFrom_prog_last _ ps k hk (ps.length + 1) 0 (by omega) hlen
  · exact runWavesFrom_snd_indep _ _ ps k (ps.length + 1) 0

/-- C8 witness: three projects in waves of two give updates (2,3), (3,3). -/
theorem claim8_witness :
    List.Chain' (fun a b : Nat × Nat => a.1 ≤ b.1)
      (uptodateRun worldA "d" "b" "m" false ["a", "bad", "c"] 2).2
    ∧ (uptodateRun worldA "d" "b" "m" false ["a", "bad", "c"] 2).2.length = 2
    ∧ (uptodateRun worldA "d" "b" "m" false ["a", "bad", "c"] 2).2.getLast?
        = some (3, 3) := by
  have h := claim8_progress_reporting worldA "d" "b" "m" false ["a", "bad", "c"] 2
    (by decide)
  exact ⟨h.1, h.2.2.1, h.2.2.2.1 (by decide)⟩



/-- C9: the drift count of every emitted uptodate result is non-negative
(assuming git rev-list count outputs parse to non-negative integers, which
holds of real git), and it is 0 when the check is satisfied, when a ref is
missing, when the merge-status block failed, or when the rev-list call
failed. -/
theorem claim9_drift_invariant (r : GitRepo) (pn td bn bb : String) (f : Bool)
    (hcounts : ∀ lo hi s, r.revListCount lo hi = some s → 0 ≤ jsParseIntOr0 s) :
    0 ≤ (processProjectU r pn td bn bb f).1.behindCommits
    ∧ ((processProjectU r pn td bn bb f).1.isUpToDate = true →
        (processProjectU r pn td bn bb f).1.behindCommits = 0)
    ∧ ((processProjectU r pn td bn bb f).1.branchExists = false
        ∨ (processProjectU r pn td bn bb f).1.masterExists = false →
        (processProjectU r pn td bn bb f).1.behindCommits = 0)
    ∧ ((processProjectU r pn td bn bb f).1.error = some checkFailMsg →
        (processProjectU r pn td bn bb f).1.behindCommits = 0)
    ∧ (r.revListCount bn bb = none →
        (processProjectU r pn td bn bb f).1.behindCommits = 0) := by
  by_cases hcond : ((resolveRef r bn).1.1 && (resolveRef r bb).1.1) = true
  case neg =>
    have hc : ((resolveRef r bn).1.1 && (resolveRef r bb).1.1) = false := by
      revert hcond
      cases ((resolveRef r bn).1.1 && (resolveRef r bb).1.1) <;> simp
    rw [processProjectU_short r pn td bn bb f hc]
    exact ⟨le_refl 0, fun _ => rfl, fun _ => rfl, fun _ => rfl, fun _ => rfl⟩
  case pos =>
    have hb : (resolveRef r bn).1.1 = true := ((Bool.and_eq_true _ _).mp hcond).1
    have hm : (resolveRef r bb).1.1 = true := ((Bool.and_eq_true _ _).mp hcond).2
    cases hrm : r.revParse ((resolveRef r bb).1.2) with
    | none =>
      have h := processProjectU_midfail r pn td bn bb f hb hm (Or.inl hrm)
      exact ⟨h.2.1.symm.le, fun _ => h.2.1, fun _ => h.2.1, fun _ => h.2.1,
             fun _ => h.2.1⟩
    | some mc =>
      cases hrb : r.revParse ((resolveRef r bn).1.2) with
      | none =>
        have h := processProjectU_midfail r pn td bn bb f hb hm (Or.inr hrb)
        exact ⟨h.2.1.symm.le, fun _ => h.2.1, fun _ => h.2.1, fun _ => h.2.1,
               fun _ => h.2.1⟩
      | some bc =>
        have h := processProjectU_main r pn td bn bb f bc mc hb hm hrm hrb
        have hmiss : (processProjectU r pn td bn bb f).1.branchExists = false
            ∨ (processProjectU r pn td bn bb f).1.masterExists = false → False := by
          intro hx
          rcases hx with hx | hx
          · rw [(processProjectU_fields r pn td bn bb f).1, hb] at hx
            simp at hx
          · rw [(processProjectU_fields r pn td bn bb f).2.1, hm] at hx
            simp at hx
        have herr : (processProjectU r pn td bn bb f).1.error = some checkFailMsg →
            False := by
          intro hx
          rw [h.2.2.2] at hx
          revert hx
          split <;> decide
        by_cases ha : r.isAncestor mc bc = true
        · have hbehind : (processProjectU r pn td bn bb f).1.behindCommits = 0 := by
            rw [h.2.2.1, if_pos ha]
          exact ⟨hbehind.symm.le, fun _ => hbehind, fun _ => hbehind,
                 fun _ => hbehind, fun _ => hbehind⟩
        · have hbehind : (processProjectU r pn td bn bb f).1.behindCommits
              = (match r.revListCount bn bb with
                 | some s => jsParseIntOr0 s
                 | none => 0) := by
            rw [h.2.2.1, if_neg ha]
          refine ⟨?_, ?_, fun hx => absurd hx (fun hy => hmiss hy),
                  fun hx => absurd hx (fun hy => herr hy), ?_⟩
          · rw [hbehind]
            cases hc : r.revListCount bn bb with
            | none => simp
            | some s => simpa using hcounts bn bb s hc
          · intro hup
            rw [h.1] at hup
            exact absurd hup ha
          · intro hnone
            rw [hbehind, hnone]



/-- C9 witness: a repository behind by 3 commits satisfies the invariant. -/
theorem claim9_witness :
    0 ≤ (processProjectU repoBehind "p" "d" "b" "m" false).1.behindCommits
    ∧ (processProjectU repoBehind "p" "d" "b" "m" false).1.behindCommits = 3 := by
  have hcounts : ∀ lo hi s, repoBehind.revListCount lo hi = some s →
      0 ≤ jsParseIntOr0 s := by
    intro lo hi s h
    have hs : "3" = s := Option.some.inj h
    rw [← hs]
    decide
  exact ⟨(claim9_drift_invariant repoBehind "p" "d" "b" "m" false hcounts).1, by decide⟩


end Feops
